import Mathlib

/-!
Verification of the HITL (human-in-the-loop) orchestration frontend.

The definitions below are a shallow embedding of the JavaScript stream
clients and demo components found in the repository:

* frontend/src/AssistantService.js (the legacy streamResponse client),
* the full AssistantService with the guarded stream clients
  (streamResponse, streamCustomWorkflow, streamDataAnalysis,
  streamEditableWorkflow, streamUnifiedWorkflow),
* CustomWorkflowDemo, UnifiedWorkflowDemo, EditableContentDemo,
  DataAnalysisDemo and HitlWorkflow.

Machine-level JavaScript details (event loop, setTimeout) are modelled as a
small-step transition system with explicit pending timers; JSON objects are
modelled as association lists; JavaScript string truthiness is modelled
explicitly.  Backend engine behaviour that is not part of the source tree is
modelled from the specification and marked as such.
-/

namespace Hitl

/-! ### Sentence splitting and joining (EditableContentDemo)

handleSaveDirectEdit derives sentence units from the content with
content.split on the regular expression class of '.', '!', '?' repeated
(one or more), then filter (s such that s.trim() is truthy), then numbering
the trimmed fragments positionally as sentence_0, sentence_1, and so on.
handleSaveEdit reconstructs the content with Object.values(units).join(" ").
Strings are modelled as lists of characters so that membership reasoning is
available. -/

/-- The three sentence punctuation characters of the regular expression. -/
def isSentencePunct (c : Char) : Bool := c = '.' || c = '!' || c = '?'

/-- Splitting a character list on maximal runs of characters satisfying p,
mirroring JavaScript String.prototype.split with a one-or-more character
class regular expression.  The boolean argument records whether the previous
character belonged to a delimiter run (so that a whole run produces a single
boundary). -/
def splitRunsGo (p : Char → Bool) : List Char → Bool → List (List Char)
  | [], _ => [[]]
  | c :: cs, inRun =>
    if p c then
      if inRun then splitRunsGo p cs true
      else [] :: splitRunsGo p cs true
    else
      match splitRunsGo p cs false with
      | [] => [[c]]
      | f :: fs => (c :: f) :: fs

/-- Split on maximal delimiter runs, starting outside a run. -/
def splitRuns (p : Char → Bool) (cs : List Char) : List (List Char) :=
  splitRunsGo p cs false

/-- JavaScript String.prototype.trim on a character list: drop whitespace
from both ends. -/
def trimChars (cs : List Char) : List Char :=
  ((cs.dropWhile Char.isWhitespace).reverse.dropWhile Char.isWhitespace).reverse

/-- The fragments kept by the filter (s such that s.trim() is truthy): a
fragment survives exactly when it is not whitespace-only. -/
def sentenceFragments (content : List Char) : List (List Char) :=
  (splitRuns isSentencePunct content).filter (fun s => !(trimChars s).isEmpty)

/-- The sentence units object built by handleSaveDirectEdit: positional ids
sentence_0, sentence_1, ... mapped to the trimmed fragments. -/
def sentenceUnits (content : List Char) : List (String × List Char) :=
  (sentenceFragments content).enum.map
    (fun p => ("sentence_" ++ toString p.1, trimChars p.2))

/-- JavaScript Array.prototype.join(" ") on a list of character lists. -/
def joinSpace : List (List Char) → List Char
  | [] => []
  | [u] => u
  | u :: us => u ++ ' ' :: joinSpace us

/-- The reconstruction used by handleSaveEdit:
Object.values(updatedSentences).join(" "). -/
def reconstructContent (units : List (String × List Char)) : List Char :=
  joinSpace (units.map Prod.snd)

theorem mem_of_mem_dropWhile {α : Type} {p : α → Bool} {c : α} :
    ∀ {l : List α}, c ∈ l.dropWhile p → c ∈ l := by
  intro l
  induction l with
  | nil => intro h; simp at h
  | cons a l ih =>
    intro h
    by_cases ha : p a
    · rw [List.dropWhile_cons_of_pos ha] at h
      exact List.mem_cons_of_mem a (ih h)
    · rw [List.dropWhile_cons_of_neg ha] at h
      exact h

theorem mem_of_mem_trimChars {c : Char} {l : List Char} :
    c ∈ trimChars l → c ∈ l := by
  intro h
  unfold trimChars at h
  rw [List.mem_reverse] at h
  have h2 := mem_of_mem_dropWhile h
  rw [List.mem_reverse] at h2
  exact mem_of_mem_dropWhile h2

theorem splitRunsGo_ne_nil (p : Char → Bool) :
    ∀ (cs : List Char) (b : Bool), splitRunsGo p cs b ≠ [] := by
  intro cs
  induction cs with
  | nil => intro b; simp [splitRunsGo]
  | cons c cs ih =>
    intro b
    by_cases hc : p c
    · by_cases hb : b
      · simpa [splitRunsGo, hc, hb] using ih true
      · simp [splitRunsGo, hc, hb]
    · simp only [splitRunsGo, hc, if_false, Bool.false_eq_true]
      cases hgo : splitRunsGo p cs false with
      | nil => simp
      | cons f fs => simp

theorem splitRunsGo_not_punct (p : Char → Bool) :
    ∀ (cs : List Char) (b : Bool) (f : List Char) (c : Char),
      f ∈ splitRunsGo p cs b → c ∈ f → p c = false := by
  intro cs
  induction cs with
  | nil =>
    intro b f c hf hc
    simp [splitRunsGo] at hf
    subst hf
    simp at hc
  | cons a cs ih =>
    intro b f c hf hc
    by_cases ha : p a
    · by_cases hb : b
      · rw [hb] at hf
        simp only [splitRunsGo, ha, if_true] at hf
        exact ih true f c hf hc
      · simp only [Bool.not_eq_true] at hb
        rw [hb] at hf
        simp only [splitRunsGo, ha, if_true] at hf
        rcases List.mem_cons.mp hf with h | h
        · subst h; simp at hc
        · exact ih true f c h hc
    · simp only [splitRunsGo, ha, if_false, Bool.false_eq_true] at hf
      cases hgo : splitRunsGo p cs false with
      | nil => exact absurd hgo (splitRunsGo_ne_nil p cs false)
      | cons g gs =>
        rw [hgo] at hf
        rcases List.mem_cons.mp hf with h | h
        · subst h
          rcases List.mem_cons.mp hc with h2 | h2
          · subst h2; simpa using ha
          · exact ih false g c (hgo ▸ List.mem_cons_self g gs) h2
        · exact ih false f c (hgo ▸ List.mem_cons_of_mem g h) hc

theorem mem_joinSpace {c : Char} :
    ∀ {us : List (List Char)}, c ∈ joinSpace us → c = ' ' ∨ ∃ u ∈ us, c ∈ u := by
  intro us
  induction us with
  | nil => intro h; simp [joinSpace] at h
  | cons u us ih =>
    intro h
    cases us with
    | nil =>
      simp only [joinSpace] at h
      right; exact ⟨u, List.mem_cons_self u [], h⟩
    | cons v vs =>
      simp only [joinSpace, List.mem_append, List.mem_cons] at h
      rcases h with h | h | h
      · right; exact ⟨u, List.mem_cons_self u (v :: vs), h⟩
      · left; exact h
      · rcases ih h with h2 | ⟨w, hw, hcw⟩
        · left; exact h2
        · right; exact ⟨w, List.mem_cons_of_mem u hw, hcw⟩

theorem reconstructContent_no_punct (content : List Char) {c : Char}
    (hc : c ∈ reconstructContent (sentenceUnits content)) :
    isSentencePunct c = false := by
  unfold reconstructContent at hc
  rcases mem_joinSpace hc with h | ⟨u, hu, hcu⟩
  · subst h; decide
  · unfold sentenceUnits at hu
    rw [List.map_map, List.mem_map] at hu
    rcases hu with ⟨⟨i, f⟩, hf, hval⟩
    simp only [Function.comp_apply] at hval
    have hmemf : c ∈ f := by
      rw [← hval] at hcu
      exact mem_of_mem_trimChars hcu
    have hfrag : f ∈ sentenceFragments content := by
      have := List.enum_map_snd (sentenceFragments content)
      have hmem : (i, f).2 ∈ (sentenceFragments content).enum.map Prod.snd :=
        List.mem_map_of_mem Prod.snd hf
      rw [this] at hmem
      exact hmem
    have hsplit : f ∈ splitRuns isSentencePunct content :=
      List.mem_of_mem_filter hfrag
    exact splitRunsGo_not_punct isSentencePunct content false f c hsplit hmemf

/-- C9: for every content string containing at least one of the characters
period, exclamation mark or question mark, the sentence-unit derivation used
by the editable-content client (split on punctuation runs, drop
whitespace-only fragments, trim, number positionally) followed by the
reconstruction used after an edit (join unit texts with single spaces) is
not the identity on the content, and the unit ids are assigned positionally
as sentence_0, sentence_1, ... on every re-split, so ids of a previous
split have no alignment guarantee. -/
theorem c9_roundtrip_not_identity (content : List Char)
    (h : ∃ c ∈ content, isSentencePunct c = true) :
    reconstructContent (sentenceUnits content) ≠ content ∧
    (sentenceUnits content).map Prod.fst =
      (List.range (sentenceFragments content).length).map
        (fun i => "sentence_" ++ toString i) := by
  constructor
  · intro heq
    rcases h with ⟨c, hcmem, hcp⟩
    rw [← heq] at hcmem
    have hfalse := reconstructContent_no_punct content hcmem
    rw [hfalse] at hcp
    exact Bool.false_ne_true hcp
  · unfold sentenceUnits
    rw [List.map_map]
    have h1 : (Prod.fst ∘ fun p : Nat × List Char =>
        ("sentence_" ++ toString p.1, trimChars p.2)) =
        (fun i => "sentence_" ++ toString i) ∘ Prod.fst := rfl
    rw [h1, ← List.map_map, List.enum_map_fst]

/-- Witness for C9 at the concrete content "Hi. Bye.". -/
theorem c9_roundtrip_not_identity_witness :
    (∃ c ∈ "Hi. Bye.".toList, isSentencePunct c = true) ∧
    (reconstructContent (sentenceUnits "Hi. Bye.".toList) ≠ "Hi. Bye.".toList ∧
     (sentenceUnits "Hi. Bye.".toList).map Prod.fst =
       (List.range (sentenceFragments "Hi. Bye.".toList).length).map
         (fun i => "sentence_" ++ toString i)) :=
  ⟨by decide, c9_roundtrip_not_identity "Hi. Bye.".toList (by decide)⟩

/-! ### The guarded stream client receivers

Shallow embedding of the guarded stream clients of the full
AssistantService.  They come in two variants that differ in exactly one
place, the body of the addEventListener error listener:

* streamCustomWorkflow, streamDataAnalysis and the guarded streamResponse
  run the listener body unconditionally; on a connection-error event, which
  carries no data, JSON.parse of the missing data throws and the catch
  branch sets the streamCompletedNormally guard, closes the source and
  invokes the error callback with the message Unknown error occurred;
* streamEditableWorkflow and streamUnifiedWorkflow first check that the
  event carries data, so on a connection-error event the listener body is
  skipped entirely.

An EventSource delivers an event of type error both to the
addEventListener error listener and to the onerror property handler, the
listener first (it is registered first); the dispatch below models that
double delivery.  The two local flags streamCompletedNormally and
hasReceivedStatusEvent, the eventSource.close calls, and the two setTimeout
callbacks (the 100ms close-after-status timeout and the 500ms
closed-without-status check) are modelled explicitly; a deferred timeout
becomes a pending timer that may fire at any later step, so every
interleaving of the JavaScript event loop is covered. -/

/-- EventSource readyState values. -/
inductive ReadyState
  | connecting
  | opened
  | closed
deriving DecidableEq, Repr

/-- A callback invocation observed by the caller of the stream client. -/
inductive CB
  | tokenMsg (content : String) (node : Option String)
  | statusMsg (status : String)
  | complete
  | errorCb (msg : String)
deriving DecidableEq, Repr

/-- External events delivered to the client: server-sent token, status and
error messages, and the connection-error event (onerror) with the readyState
the EventSource is in when it fires.  A transport close surfaces as a
connection-error event with readyState closed. -/
inductive WireEvent
  | token (content : String) (node : Option String)
  | status (status : String)
  | backendError (e : String)
  | connError (rs : ReadyState)
deriving DecidableEq, Repr

/-- The two setTimeout callbacks of the guarded client. -/
inductive TimerKind
  | statusClose
  | closeCheck
deriving DecidableEq, Repr

/-- Receiver state of one guarded stream client connection. -/
structure ClientState where
  streamCompletedNormally : Bool
  hasReceivedStatusEvent : Bool
  sourceClosed : Bool
  pending : List TimerKind
  log : List CB
deriving DecidableEq, Repr

/-- Fresh connection state. -/
def initClient : ClientState :=
  { streamCompletedNormally := false
    hasReceivedStatusEvent := false
    sourceClosed := false
    pending := []
    log := [] }

/-- The token listener: parse and forward content and node. -/
def onToken (content : String) (node : Option String) (s : ClientState) : ClientState :=
  { s with log := s.log ++ [CB.tokenMsg content node] }

/-- The status listener: forward the message, set hasReceivedStatusEvent and
schedule the 100ms close timeout. -/
def onStatus (st : String) (s : ClientState) : ClientState :=
  { s with log := s.log ++ [CB.statusMsg st]
           hasReceivedStatusEvent := true
           pending := s.pending ++ [TimerKind.statusClose] }

/-- The 100ms timeout scheduled by the status listener: if completion has
not been handled yet, mark it, close the source and invoke the completion
callback. -/
def fireStatusClose (s : ClientState) : ClientState :=
  if s.streamCompletedNormally then s
  else
    { s with streamCompletedNormally := true
             sourceClosed := true
             log := s.log ++ [CB.complete] }

/-- The backend error listener: always set the guard, close the source and
invoke the error callback with the message carried by the event. -/
def onBackendError (e : String) (s : ClientState) : ClientState :=
  { s with streamCompletedNormally := true
           sourceClosed := true
           log := s.log ++ [CB.errorCb e] }

/-- The onerror handler: ignore everything once the guard is set; treat a
state change after a status event as normal completion; on readyState
closed without a status event schedule the 500ms check; otherwise only
log. -/
def onConnError (rs : ReadyState) (s : ClientState) : ClientState :=
  if s.streamCompletedNormally then s
  else if s.hasReceivedStatusEvent then
    { s with streamCompletedNormally := true
             sourceClosed := true
             log := s.log ++ [CB.complete] }
  else if rs = ReadyState.closed then
    { s with pending := s.pending ++ [TimerKind.closeCheck] }
  else s

/-- The two guarded client variants, distinguished by whether the error
listener body runs on a data-less event. -/
inductive ClientVariant
  | unguardedListener
  | dataGuardedListener
deriving DecidableEq, Repr

/-- The error listener receiving a connection-error event (no data field).
In the unguarded variant JSON.parse of the missing data throws and the
catch branch sets the guard, closes the source and invokes the error
callback with Unknown error occurred; in the data-guarded variant the
listener body is skipped. -/
def onErrorListenerNoData : ClientVariant → ClientState → ClientState
  | ClientVariant.unguardedListener, s =>
    { s with streamCompletedNormally := true
             sourceClosed := true
             log := s.log ++ [CB.errorCb "Unknown error occurred"] }
  | ClientVariant.dataGuardedListener, s => s

/-- The 500ms timeout scheduled by onerror on a closed connection: if still
no status event and no completion, set the guard and invoke the error
callback. -/
def fireCloseCheck (s : ClientState) : ClientState :=
  if !s.hasReceivedStatusEvent && !s.streamCompletedNormally then
    { s with streamCompletedNormally := true
             log := s.log ++ [CB.errorCb "Connection closed unexpectedly"] }
  else s

/-- One step of the connection: either an external event is dispatched to
its listener, or one of the pending timers elapses. -/
inductive Step
  | ext (e : WireEvent)
  | fire (t : TimerKind)
deriving DecidableEq, Repr

/-- Dispatch of an external event to its handlers.  A connection-error
event is an event of type error, so it reaches the error listener first and
the onerror handler second; a backend error message also reaches onerror
after the listener, but the listener has already set the guard, so that
second delivery is the identity (onConnError_after_backendError below) and
is elided here. -/
def applyExt (v : ClientVariant) (e : WireEvent) (s : ClientState) : ClientState :=
  match e with
  | WireEvent.token c n => onToken c n s
  | WireEvent.status st => onStatus st s
  | WireEvent.backendError m => onBackendError m s
  | WireEvent.connError rs => onConnError rs (onErrorListenerNoData v s)

/-- Run of a scheduled timer callback. -/
def fireTimer : TimerKind → ClientState → ClientState
  | TimerKind.statusClose, s => fireStatusClose s
  | TimerKind.closeCheck, s => fireCloseCheck s

/-- A step is valid only if a fired timer was actually pending; firing
removes one pending occurrence. -/
def applyStep (v : ClientVariant) (s : ClientState) : Step → Option ClientState
  | Step.ext e => some (applyExt v e s)
  | Step.fire t =>
    if t ∈ s.pending then some (fireTimer t { s with pending := s.pending.erase t })
    else none

/-- Run a list of steps from a state; none when a step is invalid. -/
def runClient (v : ClientVariant) (s : ClientState) : List Step → Option ClientState
  | [] => some s
  | st :: rest =>
    match applyStep v s st with
    | none => none
    | some t => runClient v t rest

/-- External events of a step list, in order. -/
def extEvents : List Step → List WireEvent
  | [] => []
  | Step.ext e :: r => e :: extEvents r
  | Step.fire _ :: r => extEvents r

/-- Number of completion callback invocations in a log. -/
def completeCount (log : List CB) : Nat :=
  log.countP (fun c => match c with | CB.complete => true | _ => false)

/-- Number of error callback invocations in a log. -/
def errorCount (log : List CB) : Nat :=
  log.countP (fun c => match c with | CB.errorCb _ => true | _ => false)

/-- Event classifiers. -/
def isTokenEv : WireEvent → Bool
  | WireEvent.token _ _ => true
  | _ => false

def isStatusEv : WireEvent → Bool
  | WireEvent.status _ => true
  | _ => false

def isFireStep : Step → Bool
  | Step.fire _ => true
  | _ => false

/-! ### The legacy stream client receiver

Shallow embedding of streamResponse in frontend/src/AssistantService.js.
It has no streamCompletedNormally guard and no backend error listener; the
status listener records receipt in a window-global flag keyed by the
connection URL (per connection this is one boolean), and onerror decides
directly: completion when a status event was seen, the error callback only
when readyState is neither CLOSED nor CONNECTING, and otherwise the
completion callback. -/

structure LegacyState where
  hasReceivedStatusEvent : Bool
  sourceClosed : Bool
  log : List CB
deriving DecidableEq, Repr

def legacyInit : LegacyState :=
  { hasReceivedStatusEvent := false, sourceClosed := false, log := [] }

def legacyOnToken (content : String) (s : LegacyState) : LegacyState :=
  { s with log := s.log ++ [CB.tokenMsg content none] }

def legacyOnStatus (st : String) (s : LegacyState) : LegacyState :=
  { s with log := s.log ++ [CB.statusMsg st]
           hasReceivedStatusEvent := true }

def legacyOnConnError (rs : ReadyState) (s : LegacyState) : LegacyState :=
  if s.hasReceivedStatusEvent then
    { s with sourceClosed := true, log := s.log ++ [CB.complete] }
  else if rs ≠ ReadyState.closed ∧ rs ≠ ReadyState.connecting then
    { s with sourceClosed := true
             log := s.log ++ [CB.errorCb "Connection error or server disconnected"] }
  else { s with log := s.log ++ [CB.complete] }

/-! ### Invariants of the guarded receiver -/

theorem completeCount_snoc (l : List CB) (c : CB) :
    completeCount (l ++ [c]) =
      completeCount l + (match c with | CB.complete => 1 | _ => 0) := by
  cases c <;> simp [completeCount, List.countP_append, List.countP_cons]

theorem errorCount_snoc (l : List CB) (c : CB) :
    errorCount (l ++ [c]) =
      errorCount l + (match c with | CB.errorCb _ => 1 | _ => 0) := by
  cases c <;> simp [errorCount, List.countP_append, List.countP_cons]

theorem runClient_append (v : ClientVariant) (a b : List Step) (s : ClientState) :
    runClient v s (a ++ b) = (runClient v s a).bind (fun t => runClient v t b) := by
  induction a generalizing s with
  | nil => simp [runClient]
  | cons st rest ih =>
    simp only [List.cons_append, runClient]
    cases h : applyStep v s st with
    | none => simp
    | some t => simp [ih t]

theorem scn_applyStep {v : ClientVariant} {s t : ClientState} {st : Step}
    (h : applyStep v s st = some t)
    (hs : s.streamCompletedNormally = true) :
    t.streamCompletedNormally = true := by
  cases st with
  | ext e =>
    simp only [applyStep, Option.some_inj] at h
    subst h
    cases e with
    | token c n => simpa [applyExt, onToken] using hs
    | status v => simpa [applyExt, onStatus] using hs
    | backendError m => simp [applyExt, onBackendError]
    | connError rs =>
      cases v with
      | unguardedListener => simp [applyExt, onErrorListenerNoData, onConnError]
      | dataGuardedListener => simp [applyExt, onErrorListenerNoData, onConnError, hs]
  | fire tk =>
    simp only [applyStep] at h
    by_cases hmem : tk ∈ s.pending
    · rw [if_pos hmem, Option.some_inj] at h
      subst h
      cases tk with
      | statusClose => simp [fireTimer, fireStatusClose, hs]
      | closeCheck => simp [fireTimer, fireCloseCheck, hs]
    · rw [if_neg hmem] at h
      exact absurd h (by simp)

theorem scn_runClient {v : ClientVariant} {steps : List Step} :
    ∀ {s s' : ClientState}, runClient v s steps = some s' →
      s.streamCompletedNormally = true → s'.streamCompletedNormally = true := by
  induction steps with
  | nil =>
    intro s s' h hs
    simp only [runClient, Option.some_inj] at h
    subst h; exact hs
  | cons st rest ih =>
    intro s s' h hs
    simp only [runClient] at h
    cases ha : applyStep v s st with
    | none => rw [ha] at h; exact absurd h (by simp)
    | some t =>
      rw [ha] at h
      exact ih h (scn_applyStep ha hs)

theorem hrse_applyStep {v : ClientVariant} {s t : ClientState} {st : Step}
    (h : applyStep v s st = some t)
    (hs : s.hasReceivedStatusEvent = true) :
    t.hasReceivedStatusEvent = true := by
  cases st with
  | ext e =>
    simp only [applyStep, Option.some_inj] at h
    subst h
    cases e with
    | token c n => simpa [applyExt, onToken] using hs
    | status v => simp [applyExt, onStatus]
    | backendError m => simpa [applyExt, onBackendError] using hs
    | connError rs =>
      cases v with
      | unguardedListener =>
        simp [applyExt, onErrorListenerNoData, onConnError, hs]
      | dataGuardedListener =>
        simp only [applyExt, onErrorListenerNoData, onConnError]
        split <;> simp_all
  | fire tk =>
    simp only [applyStep] at h
    by_cases hmem : tk ∈ s.pending
    · rw [if_pos hmem, Option.some_inj] at h
      subst h
      cases tk with
      | statusClose =>
        simp only [fireTimer, fireStatusClose]
        split <;> simpa using hs
      | closeCheck =>
        simp only [fireTimer, fireCloseCheck]
        split <;> simpa using hs
    · rw [if_neg hmem] at h
      exact absurd h (by simp)

theorem onConnError_of_scn (rs : ReadyState) {s : ClientState}
    (hs : s.streamCompletedNormally = true) : onConnError rs s = s := by
  simp [onConnError, hs]

theorem fireStatusClose_of_scn {s : ClientState}
    (hs : s.streamCompletedNormally = true) : fireStatusClose s = s := by
  simp [fireStatusClose, hs]

theorem onConnError_after_backendError (rs : ReadyState) (e : String) (s : ClientState) :
    onConnError rs (onBackendError e s) = onBackendError e s :=
  onConnError_of_scn rs rfl

theorem fireCloseCheck_of_scn {s : ClientState}
    (hs : s.streamCompletedNormally = true) : fireCloseCheck s = s := by
  simp [fireCloseCheck, hs]

theorem completeCount_applyStep_of_scn {v : ClientVariant} {s t : ClientState} {st : Step}
    (h : applyStep v s st = some t)
    (hs : s.streamCompletedNormally = true) :
    completeCount t.log = completeCount s.log := by
  cases st with
  | ext e =>
    simp only [applyStep, Option.some_inj] at h
    subst h
    cases e with
    | token c n => simp [applyExt, onToken, completeCount_snoc]
    | status v => simp [applyExt, onStatus, completeCount_snoc]
    | backendError m => simp [applyExt, onBackendError, completeCount_snoc]
    | connError rs =>
      cases v with
      | unguardedListener =>
        simp [applyExt, onErrorListenerNoData, onConnError, completeCount_snoc]
      | dataGuardedListener =>
        simp [applyExt, onErrorListenerNoData, onConnError_of_scn rs hs]
  | fire tk =>
    simp only [applyStep] at h
    by_cases hmem : tk ∈ s.pending
    · rw [if_pos hmem, Option.some_inj] at h
      subst h
      cases tk with
      | statusClose => simp [fireTimer, fireStatusClose, hs]
      | closeCheck => simp [fireTimer, fireCloseCheck, hs]
    · rw [if_neg hmem] at h
      exact absurd h (by simp)

theorem completeCount_runClient_of_scn {v : ClientVariant} {steps : List Step} :
    ∀ {s s' : ClientState}, runClient v s steps = some s' →
      s.streamCompletedNormally = true →
      completeCount s'.log = completeCount s.log := by
  induction steps with
  | nil =>
    intro s s' h hs
    simp only [runClient, Option.some_inj] at h
    subst h; rfl
  | cons st rest ih =>
    intro s s' h hs
    simp only [runClient] at h
    cases ha : applyStep v s st with
    | none => rw [ha] at h; exact absurd h (by simp)
    | some t =>
      rw [ha] at h
      rw [ih h (scn_applyStep ha hs), completeCount_applyStep_of_scn ha hs]

theorem hrse_runClient {v : ClientVariant} {steps : List Step} :
    ∀ {s s' : ClientState}, runClient v s steps = some s' →
      s.hasReceivedStatusEvent = true → s'.hasReceivedStatusEvent = true := by
  induction steps with
  | nil =>
    intro s s' h hs
    simp only [runClient, Option.some_inj] at h
    subst h; exact hs
  | cons st rest ih =>
    intro s s' h hs
    simp only [runClient] at h
    cases ha : applyStep v s st with
    | none => rw [ha] at h; exact absurd h (by simp)
    | some t =>
      rw [ha] at h
      exact ih h (hrse_applyStep ha hs)

/-- Invariant along a connection that has seen only token and status events
and timer fires: no error callback yet, only status-close timers pending,
and the completion callback has fired exactly once if and only if the
completion guard is set. -/
def InvA (s : ClientState) : Prop :=
  errorCount s.log = 0 ∧
  (∀ t ∈ s.pending, t = TimerKind.statusClose) ∧
  (s.streamCompletedNormally = true → completeCount s.log = 1) ∧
  (s.streamCompletedNormally = false → completeCount s.log = 0)

theorem invA_applyStep {v : ClientVariant} {s t : ClientState} {st : Step}
    (h : applyStep v s st = some t)
    (hok : ∀ e, st = Step.ext e → isTokenEv e = true ∨ isStatusEv e = true)
    (hs : InvA s) : InvA t := by
  obtain ⟨he, hp, hc1, hc0⟩ := hs
  cases st with
  | ext e =>
    simp only [applyStep, Option.some_inj] at h
    subst h
    cases e with
    | token c n =>
      refine ⟨?_, ?_, ?_, ?_⟩
      · simpa [applyExt, onToken, errorCount_snoc] using he
      · simpa [applyExt, onToken] using hp
      · intro hsc
        simp only [applyExt, onToken] at hsc ⊢
        rw [completeCount_snoc]
        simpa using hc1 hsc
      · intro hsc
        simp only [applyExt, onToken] at hsc ⊢
        rw [completeCount_snoc]
        simpa using hc0 hsc
    | status v =>
      refine ⟨?_, ?_, ?_, ?_⟩
      · simpa [applyExt, onStatus, errorCount_snoc] using he
      · intro tk hmem
        simp only [applyExt, onStatus, List.mem_append, List.mem_singleton] at hmem
        rcases hmem with hmem | hmem
        · exact hp tk hmem
        · exact hmem
      · intro hsc
        simp only [applyExt, onStatus] at hsc ⊢
        rw [completeCount_snoc]
        simpa using hc1 hsc
      · intro hsc
        simp only [applyExt, onStatus] at hsc ⊢
        rw [completeCount_snoc]
        simpa using hc0 hsc
    | backendError m => exact absurd (hok (WireEvent.backendError m) rfl) (by simp [isTokenEv, isStatusEv])
    | connError rs => exact absurd (hok (WireEvent.connError rs) rfl) (by simp [isTokenEv, isStatusEv])
  | fire tk =>
    simp only [applyStep] at h
    by_cases hmem : tk ∈ s.pending
    · rw [if_pos hmem, Option.some_inj] at h
      subst h
      have htk : tk = TimerKind.statusClose := hp tk hmem
      subst htk
      by_cases hscn : s.streamCompletedNormally = true
      · have hform : fireTimer TimerKind.statusClose
            { s with pending := s.pending.erase TimerKind.statusClose } =
            { s with pending := s.pending.erase TimerKind.statusClose } := by
          simp [fireTimer, fireStatusClose, hscn]
        rw [hform]
        refine ⟨he, ?_, fun _ => hc1 hscn, ?_⟩
        · intro u hu
          exact hp u (List.mem_of_mem_erase hu)
        · intro hfalse
          rw [hscn] at hfalse
          exact absurd hfalse (by simp)
      · rw [Bool.not_eq_true] at hscn
        refine ⟨?_, ?_, ?_, ?_⟩
        · simpa [fireTimer, fireStatusClose, hscn, errorCount_snoc] using he
        · intro u hu
          simp only [fireTimer, fireStatusClose, hscn] at hu
          simp only [Bool.false_eq_true, if_false] at hu
          exact hp u (List.mem_of_mem_erase hu)
        · intro _
          simp only [fireTimer, fireStatusClose, hscn, Bool.false_eq_true, if_false]
          rw [completeCount_snoc]
          simpa using hc0 hscn
        · intro hfalse
          simp only [fireTimer, fireStatusClose, hscn, Bool.false_eq_true, if_false] at hfalse
          exact absurd hfalse (by simp)
    · rw [if_neg hmem] at h
      exact absurd h (by simp)

theorem invA_runClient {v : ClientVariant} {steps : List Step} :
    ∀ {s s' : ClientState}, runClient v s steps = some s' →
      (∀ e ∈ extEvents steps, isTokenEv e = true ∨ isStatusEv e = true) →
      InvA s → InvA s' := by
  induction steps with
  | nil =>
    intro s s' h _ hs
    simp only [runClient, Option.some_inj] at h
    subst h; exact hs
  | cons st rest ih =>
    intro s s' h hok hs
    simp only [runClient] at h
    cases ha : applyStep v s st with
    | none => rw [ha] at h; exact absurd h (by simp)
    | some t =>
      rw [ha] at h
      have hstep : InvA t := by
        refine invA_applyStep ha ?_ hs
        intro e hst
        subst hst
        exact hok e (by simp [extEvents])
      refine ih h ?_ hstep
      intro e hmem
      refine hok e ?_
      cases st with
      | ext e2 => simp only [extEvents]; exact List.mem_cons_of_mem e2 hmem
      | fire _ => simpa [extEvents] using hmem

theorem invA_init : InvA initClient := by
  refine ⟨rfl, ?_, ?_, fun _ => rfl⟩
  · intro t ht
    simp [initClient] at ht
  · intro hsc
    simp [initClient] at hsc

/-- Processing a connection error after a status event was received keeps
the invariant and leaves the completion guard set. -/
theorem onConnError_after_status {s : ClientState} (hInv : InvA s)
    (hr : s.hasReceivedStatusEvent = true) (rs : ReadyState) :
    InvA (onConnError rs s) ∧
      (onConnError rs s).streamCompletedNormally = true := by
  obtain ⟨he, hp, hc1, hc0⟩ := hInv
  by_cases hscn : s.streamCompletedNormally = true
  · rw [onConnError_of_scn rs hscn]
    exact ⟨⟨he, hp, hc1, hc0⟩, hscn⟩
  · rw [Bool.not_eq_true] at hscn
    have hform : onConnError rs s =
        { s with streamCompletedNormally := true
                 sourceClosed := true
                 log := s.log ++ [CB.complete] } := by
      simp [onConnError, hscn, hr]
    rw [hform]
    refine ⟨⟨?_, ?_, ?_, ?_⟩, rfl⟩
    · simpa [errorCount_snoc] using he
    · intro u hu
      exact hp u hu
    · intro _
      rw [completeCount_snoc]
      simpa using hc0 hscn
    · intro hfalse
      exact absurd hfalse (by simp)

/-- Timer fires in a guard-set state with only status-close timers pending
leave the log untouched. -/
theorem post_fires_stable {v : ClientVariant} {steps : List Step} :
    ∀ {s s' : ClientState}, runClient v s steps = some s' →
      (∀ st ∈ steps, isFireStep st = true) →
      s.streamCompletedNormally = true →
      (∀ t ∈ s.pending, t = TimerKind.statusClose) →
      s'.log = s.log := by
  induction steps with
  | nil =>
    intro s s' h _ _ _
    simp only [runClient, Option.some_inj] at h
    subst h; rfl
  | cons st rest ih =>
    intro s s' h hfires hscn hp
    simp only [runClient] at h
    cases ha : applyStep v s st with
    | none => rw [ha] at h; exact absurd h (by simp)
    | some t =>
      rw [ha] at h
      cases st with
      | ext e => exact absurd (hfires (Step.ext e) (List.mem_cons_self _ _)) (by simp [isFireStep])
      | fire tk =>
        simp only [applyStep] at ha
        by_cases hmem : tk ∈ s.pending
        · rw [if_pos hmem, Option.some_inj] at ha
          have htk : tk = TimerKind.statusClose := hp tk hmem
          subst htk
          have hform : t = { s with pending := s.pending.erase TimerKind.statusClose } := by
            rw [← ha]
            simp [fireTimer, fireStatusClose, hscn]
          have hrest := ih h (fun u hu => hfires u (List.mem_cons_of_mem _ hu))
            (by rw [hform]; exact hscn)
            (by
              rw [hform]
              intro u hu
              exact hp u (List.mem_of_mem_erase hu))
          rw [hrest, hform]
        · rw [if_neg hmem] at ha
          exact absurd ha (by simp)

/-- Append decomposition for client runs. -/
theorem runClient_append_iff (v : ClientVariant) (a b : List Step) :
    ∀ (s s' : ClientState), runClient v s (a ++ b) = some s' ↔
      ∃ t, runClient v s a = some t ∧ runClient v t b = some s' := by
  induction a with
  | nil =>
    intro s s'
    simp [runClient]
  | cons st rest ih =>
    intro s s'
    simp only [List.cons_append, runClient]
    cases h : applyStep v s st with
    | none => simp
    | some t => exact ih t s'

/-- A run whose external events all carry a status event somewhere leaves
the hasReceivedStatusEvent flag set. -/
theorem hrse_of_status_run {v : ClientVariant} {steps : List Step} :
    ∀ {s s' : ClientState}, runClient v s steps = some s' →
      (∃ e ∈ extEvents steps, isStatusEv e = true) →
      s'.hasReceivedStatusEvent = true := by
  induction steps with
  | nil =>
    intro s s' _ hst
    simp [extEvents] at hst
  | cons st rest ih =>
    intro s s' h hst
    simp only [runClient] at h
    cases ha : applyStep v s st with
    | none => rw [ha] at h; exact absurd h (by simp)
    | some t =>
      rw [ha] at h
      cases st with
      | ext e =>
        rcases hst with ⟨e2, hmem, he2⟩
        simp only [extEvents, List.mem_cons] at hmem
        rcases hmem with rfl | hmem
        · cases e2 with
          | status v =>
            have hform : t = onStatus v s := by
              simp only [applyStep, applyExt, Option.some_inj] at ha
              rw [← ha]
            have : t.hasReceivedStatusEvent = true := by
              rw [hform]; rfl
            exact hrse_runClient h this
          | token c n => simp [isStatusEv] at he2
          | backendError m => simp [isStatusEv] at he2
          | connError rs => simp [isStatusEv] at he2
        · exact ih h ⟨e2, hmem, he2⟩
      | fire tk =>
        refine ih h ?_
        simpa [extEvents] using hst

/-- Invariant along a connection that has seen only token events: nothing
pending, no flag set, no terminal callback fired. -/
def InvB (s : ClientState) : Prop :=
  s.hasReceivedStatusEvent = false ∧
  s.streamCompletedNormally = false ∧
  s.pending = [] ∧
  completeCount s.log = 0 ∧
  errorCount s.log = 0

theorem invB_init : InvB initClient :=
  ⟨rfl, rfl, rfl, rfl, rfl⟩

theorem invB_runClient {v : ClientVariant} {steps : List Step} :
    ∀ {s s' : ClientState}, runClient v s steps = some s' →
      (∀ e ∈ extEvents steps, isTokenEv e = true) →
      InvB s → InvB s' := by
  induction steps with
  | nil =>
    intro s s' h _ hs
    simp only [runClient, Option.some_inj] at h
    subst h; exact hs
  | cons st rest ih =>
    intro s s' h hok hs
    obtain ⟨h1, h2, h3, h4, h5⟩ := hs
    simp only [runClient] at h
    cases ha : applyStep v s st with
    | none => rw [ha] at h; exact absurd h (by simp)
    | some t =>
      rw [ha] at h
      cases st with
      | ext e =>
        have he : isTokenEv e = true := hok e (by simp [extEvents])
        cases e with
        | token c n =>
          have hform : t = onToken c n s := by
            simp only [applyStep, applyExt, Option.some_inj] at ha
            rw [← ha]
          have hInvT : InvB t := by
            rw [hform]
            refine ⟨h1, h2, h3, ?_, ?_⟩
            · simp only [onToken]
              rw [completeCount_snoc]
              simpa using h4
            · simp only [onToken]
              rw [errorCount_snoc]
              simpa using h5
          refine ih h ?_ hInvT
          intro e2 hmem
          exact hok e2 (by simp only [extEvents]; exact List.mem_cons_of_mem _ hmem)
        | status v => simp [isTokenEv] at he
        | backendError m => simp [isTokenEv] at he
        | connError rs => simp [isTokenEv] at he
      | fire tk =>
        simp only [applyStep, h3] at ha
        simp at ha

/-- A connection error with readyState closed on a connection that has seen
no status event only schedules the close-check timer. -/
theorem onConnError_closed_no_status {s : ClientState}
    (h1 : s.hasReceivedStatusEvent = false)
    (h2 : s.streamCompletedNormally = false) :
    onConnError ReadyState.closed s =
      { s with pending := s.pending ++ [TimerKind.closeCheck] } := by
  simp [onConnError, h1, h2]

/-- With nothing pending, a run of timer fires is empty. -/
theorem run_fires_empty_pending {v : ClientVariant} {steps : List Step} :
    ∀ {s s' : ClientState}, runClient v s steps = some s' →
      (∀ st ∈ steps, isFireStep st = true) →
      s.pending = [] → s' = s := by
  induction steps with
  | nil =>
    intro s s' h _ _
    simp only [runClient, Option.some_inj] at h
    exact h.symm
  | cons st rest ih =>
    intro s s' h hf hp
    cases st with
    | ext e => exact absurd (hf (Step.ext e) (List.mem_cons_self _ _)) (by simp [isFireStep])
    | fire tk =>
      simp only [runClient, applyStep, hp] at h
      simp at h

/-- From a state with exactly the close-check timer pending, no status
received and no guard, a complete run of fires ends with exactly one more
error callback and no new completion callback. -/
theorem post_closeCheck_fires {v : ClientVariant} {steps : List Step} {s s' : ClientState}
    (h : runClient v s steps = some s')
    (hf : ∀ st ∈ steps, isFireStep st = true)
    (h1 : s.hasReceivedStatusEvent = false)
    (h2 : s.streamCompletedNormally = false)
    (h3 : s.pending = [TimerKind.closeCheck])
    (hP : s'.pending = []) :
    completeCount s'.log = completeCount s.log ∧
      errorCount s'.log = errorCount s.log + 1 := by
  cases steps with
  | nil =>
    simp only [runClient, Option.some_inj] at h
    subst h
    rw [h3] at hP
    simp at hP
  | cons st rest =>
    cases st with
    | ext e => exact absurd (hf (Step.ext e) (List.mem_cons_self _ _)) (by simp [isFireStep])
    | fire tk =>
      cases tk with
      | statusClose =>
        simp only [runClient, applyStep, h3] at h
        simp at h
      | closeCheck =>
        simp only [runClient, applyStep, h3] at h
        rw [if_pos (by simp)] at h
        have hform : fireTimer TimerKind.closeCheck
            { s with pending := [TimerKind.closeCheck].erase TimerKind.closeCheck } =
            { s with pending := []
                     streamCompletedNormally := true
                     log := s.log ++ [CB.errorCb "Connection closed unexpectedly"] } := by
          simp [fireTimer, fireCloseCheck, h1, h2, List.erase]
        rw [hform] at h
        have hfin := run_fires_empty_pending h
          (fun u hu => hf u (List.mem_cons_of_mem _ hu)) rfl
        rw [hfin]
        constructor
        · rw [completeCount_snoc]; simp
        · rw [errorCount_snoc]

/-- C1 counterexample, failing the claim on two of its quantified clients.
Legacy streamResponse (frontend/src/AssistantService.js): a transport close
(connection-error event, readyState CLOSED) before any status event falls
through onerror to the normal-close branch, which invokes the completion
callback and never the error callback.  streamCustomWorkflow (same listener
body in streamDataAnalysis and the guarded streamResponse): a transport
close is an event of type error, so it first reaches the addEventListener
error listener, whose catch branch (JSON.parse of the missing data throws)
unconditionally invokes the error callback; hence a close arriving after a
status event but before the 100ms timeout yields an error callback and no
completion callback. -/
theorem c1_counterexample :
    ((legacyOnConnError ReadyState.closed legacyInit).log = [CB.complete] ∧
      completeCount (legacyOnConnError ReadyState.closed legacyInit).log = 1 ∧
      errorCount (legacyOnConnError ReadyState.closed legacyInit).log = 0) ∧
    (runClient ClientVariant.unguardedListener initClient
        [Step.ext (WireEvent.status "finished"),
          Step.ext (WireEvent.connError ReadyState.closed),
          Step.fire TimerKind.statusClose] =
        some (ClientState.mk true true true []
          [CB.statusMsg "finished", CB.errorCb "Unknown error occurred"]) ∧
      errorCount [CB.statusMsg "finished", CB.errorCb "Unknown error occurred"] = 1 ∧
      completeCount [CB.statusMsg "finished", CB.errorCb "Unknown error occurred"] = 0) := by
  refine ⟨⟨?_, ?_, ?_⟩, ?_, ?_, ?_⟩ <;> decide

/-- C1 amended: the claimed close semantics hold exactly for the two
clients whose error listener skips data-less events, streamEditableWorkflow
and streamUnifiedWorkflow.  For those, on a connection carrying only token
and status events, a connection-error event arriving after some status
event leads to exactly one completion callback and no error callback, for
every interleaving of the deferred timeouts; and on a connection carrying
only token events, a connection-error event with readyState CLOSED leads,
once all scheduled timeouts have elapsed, to exactly one error callback and
no completion callback.  The other stream clients violate the rule: in
streamCustomWorkflow, streamDataAnalysis and the guarded streamResponse,
any connection-error event runs the error listener catch branch, which
invokes the error callback whatever came before (third part below); and the
legacy streamResponse invokes the completion callback on a pre-status close
(see the counterexample). -/
theorem c1_amended_close_semantics :
    (∀ (pre post : List Step) (rs : ReadyState) (s' : ClientState),
      (∀ e ∈ extEvents pre, isTokenEv e = true ∨ isStatusEv e = true) →
      (∃ e ∈ extEvents pre, isStatusEv e = true) →
      (∀ st ∈ post, isFireStep st = true) →
      runClient ClientVariant.dataGuardedListener initClient
        (pre ++ Step.ext (WireEvent.connError rs) :: post) = some s' →
      completeCount s'.log = 1 ∧ errorCount s'.log = 0) ∧
    (∀ (pre post : List Step) (s' : ClientState),
      (∀ e ∈ extEvents pre, isTokenEv e = true) →
      (∀ st ∈ post, isFireStep st = true) →
      runClient ClientVariant.dataGuardedListener initClient
        (pre ++ Step.ext (WireEvent.connError ReadyState.closed) :: post) = some s' →
      s'.pending = [] →
      errorCount s'.log = 1 ∧ completeCount s'.log = 0) ∧
    (∀ (s : ClientState) (rs : ReadyState),
      (applyExt ClientVariant.unguardedListener (WireEvent.connError rs) s).log =
        s.log ++ [CB.errorCb "Unknown error occurred"]) := by
  refine ⟨?_, ?_, ?_⟩
  · intro pre post rs s' hok hst hfires hrun
    rw [runClient_append_iff] at hrun
    obtain ⟨s1, h1, hrun⟩ := hrun
    simp only [runClient, applyStep, applyExt, onErrorListenerNoData] at hrun
    have hInv1 : InvA s1 := invA_runClient h1 hok invA_init
    have hr : s1.hasReceivedStatusEvent = true := hrse_of_status_run h1 hst
    obtain ⟨hInv2, hscn2⟩ := onConnError_after_status hInv1 hr rs
    have hlog : s'.log = (onConnError rs s1).log :=
      post_fires_stable hrun hfires hscn2 hInv2.2.1
    obtain ⟨he2, hp2, hc12, hc02⟩ := hInv2
    rw [hlog]
    exact ⟨hc12 hscn2, he2⟩
  · intro pre post s' htok hfires hrun hpend
    rw [runClient_append_iff] at hrun
    obtain ⟨s1, h1, hrun⟩ := hrun
    simp only [runClient, applyStep, applyExt, onErrorListenerNoData] at hrun
    have hInv1 : InvB s1 := invB_runClient h1 htok invB_init
    obtain ⟨h1f, h2f, h3f, h4f, h5f⟩ := hInv1
    rw [onConnError_closed_no_status h1f h2f, h3f] at hrun
    have hcounts := post_closeCheck_fires hrun hfires h1f h2f (by simp) hpend
    simp only at hcounts
    obtain ⟨hc, he⟩ := hcounts
    rw [hc, he, h4f, h5f]
    exact ⟨rfl, rfl⟩
  · intro s rs
    simp [applyExt, onErrorListenerNoData, onConnError]

/-- Witness for the amended C1 on concrete traces of the data-guarded
client: a status event then a close (completion, no error), a bare close
followed by its elapsed close-check timeout (error, no completion), and the
unguarded listener catch on a fresh connection. -/
theorem c1_amended_close_semantics_witness :
    (completeCount (ClientState.mk true true true []
        [CB.statusMsg "finished", CB.complete]).log = 1 ∧
      errorCount (ClientState.mk true true true []
        [CB.statusMsg "finished", CB.complete]).log = 0) ∧
    (errorCount (ClientState.mk true false false []
        [CB.errorCb "Connection closed unexpectedly"]).log = 1 ∧
      completeCount (ClientState.mk true false false []
        [CB.errorCb "Connection closed unexpectedly"]).log = 0) ∧
    (applyExt ClientVariant.unguardedListener (WireEvent.connError ReadyState.closed)
        initClient).log = initClient.log ++ [CB.errorCb "Unknown error occurred"] :=
  ⟨c1_amended_close_semantics.1 [Step.ext (WireEvent.status "finished")]
      [Step.fire TimerKind.statusClose] ReadyState.closed
      (ClientState.mk true true true [] [CB.statusMsg "finished", CB.complete])
      (by decide) (by decide) (by decide) (by decide),
    c1_amended_close_semantics.2.1 [] [Step.fire TimerKind.closeCheck]
      (ClientState.mk true false false [] [CB.errorCb "Connection closed unexpectedly"])
      (by decide) (by decide) (by decide) (by decide),
    c1_amended_close_semantics.2.2 initClient ReadyState.closed⟩

/-- C8: on receipt of an error wire message of the form carrying an error
string, the guarded stream client sets the completion guard, closes the
event source immediately, surfaces exactly that string through the error
callback, and no completion callback fires on that connection afterwards,
whatever events or timer fires follow; a status message (including one with
status failed) instead goes through the message callback, never through
the error callback, so the transport-level error path is distinct from the
semantic status failed transition. -/
theorem c8_backend_error_terminates (v : ClientVariant) (s1 s' : ClientState)
    (e : String) (post : List Step) :
    (onBackendError e s1).log = s1.log ++ [CB.errorCb e] ∧
    (onBackendError e s1).sourceClosed = true ∧
    (onBackendError e s1).streamCompletedNormally = true ∧
    (runClient v (onBackendError e s1) post = some s' →
      completeCount s'.log = completeCount (onBackendError e s1).log) ∧
    (∀ st, (onStatus st s1).log = s1.log ++ [CB.statusMsg st]) := by
  refine ⟨rfl, rfl, rfl, ?_, fun st => rfl⟩
  intro h
  exact completeCount_runClient_of_scn h rfl

/-- Witness for C8: after a backend error event on a fresh connection, a
further status event does not make the completion count grow. -/
theorem c8_backend_error_terminates_witness :
    completeCount (onStatus "finished" (onBackendError "boom" initClient)).log =
      completeCount (onBackendError "boom" initClient).log :=
  (c8_backend_error_terminates ClientVariant.unguardedListener initClient
      (onStatus "finished" (onBackendError "boom" initClient)) "boom"
      [Step.ext (WireEvent.status "finished")]).2.2.2.1 (by decide)

/-- C10: the guard-setting callback paths of the guarded stream clients
(the backend error event path and the post-status close path) set the
streamCompletedNormally guard exactly when they invoke their callback; the
guard, once set, survives every further valid step of either client
variant; and with the guard set, the connection-error handler (onerror) and
both deferred timeouts are exact no-ops, so the connection-error handler
never invokes the completion or the error callback again on that
connection.  (The addEventListener error listener is a distinct handler:
in the unguarded variants its catch branch is not covered by the guard,
which is the C1 finding; the claim here is scoped to the connection-error
handler.) -/
theorem c10_completion_guard_once :
    (∀ (s : ClientState) (e : String),
      (onBackendError e s).streamCompletedNormally = true ∧
      (onBackendError e s).log = s.log ++ [CB.errorCb e]) ∧
    (∀ (s : ClientState) (rs : ReadyState),
      s.streamCompletedNormally = false → s.hasReceivedStatusEvent = true →
      (onConnError rs s).streamCompletedNormally = true ∧
      (onConnError rs s).log = s.log ++ [CB.complete]) ∧
    (∀ (v : ClientVariant) (steps : List Step) (s s' : ClientState),
      runClient v s steps = some s' → s.streamCompletedNormally = true →
      s'.streamCompletedNormally = true) ∧
    (∀ (s : ClientState) (rs : ReadyState),
      s.streamCompletedNormally = true → onConnError rs s = s) ∧
    (∀ s : ClientState, s.streamCompletedNormally = true → fireCloseCheck s = s) ∧
    (∀ s : ClientState, s.streamCompletedNormally = true → fireStatusClose s = s) := by
  refine ⟨fun s e => ⟨rfl, rfl⟩, ?_, ?_, ?_, ?_, ?_⟩
  · intro s rs hscn hr
    constructor <;> simp [onConnError, hscn, hr]
  · intro v steps s s' h hs
    exact scn_runClient h hs
  · intro s rs hs
    exact onConnError_of_scn rs hs
  · intro s hs
    exact fireCloseCheck_of_scn hs
  · intro s hs
    exact fireStatusClose_of_scn hs

/-- Witness for C10 on concrete states: the backend error path sets the
guard, the post-status close path fires completion once, and afterwards the
connection-error handler and the close-check timer are no-ops. -/
theorem c10_completion_guard_once_witness :
    ((onBackendError "x" initClient).streamCompletedNormally = true ∧
      (onBackendError "x" initClient).log = initClient.log ++ [CB.errorCb "x"]) ∧
    ((onConnError ReadyState.opened (onStatus "finished" initClient)).streamCompletedNormally
        = true ∧
      (onConnError ReadyState.opened (onStatus "finished" initClient)).log =
        (onStatus "finished" initClient).log ++ [CB.complete]) ∧
    onConnError ReadyState.closed (onBackendError "x" initClient) =
      onBackendError "x" initClient ∧
    fireCloseCheck (onBackendError "x" initClient) = onBackendError "x" initClient :=
  ⟨c10_completion_guard_once.1 initClient "x",
    c10_completion_guard_once.2.1 (onStatus "finished" initClient) ReadyState.opened rfl rfl,
    c10_completion_guard_once.2.2.2.1 (onBackendError "x" initClient) ReadyState.closed rfl,
    c10_completion_guard_once.2.2.2.2.1 (onBackendError "x" initClient) rfl⟩

/-! ### Demo component state handlers

Shallow embedding of the parts of CustomWorkflowDemo, UnifiedWorkflowDemo,
EditableContentDemo, DataAnalysisDemo and HitlWorkflow that the claims are
about.  JavaScript string truthiness (undefined and the empty string are
falsy) is modelled by isTruthy on Option String; a JavaScript object used
as an ordered map is an association list, with the spread update keeping
the position of an existing key. -/

/-- JavaScript truthiness of a possibly absent string field. -/
def isTruthy : Option String → Bool
  | none => false
  | some s => !s.isEmpty

/-- Payload of one onMessageCallback invocation of streamCustomWorkflow:
content and node for token events, status, draft_content and final_output
for status events. -/
structure StreamMsg where
  content : Option String
  node : Option String
  status : Option String
  draft_content : Option String
  final_output : Option String
deriving DecidableEq, Repr

/-- The component state of CustomWorkflowDemo touched by its stream
callback (the refs researchRef, draftRef, finalizeRef are merged with their
mirrored state variables, which the code keeps in lock step). -/
structure CustomDemoState where
  uiState : String
  currentStage : Option String
  researchContent : String
  draftContent : String
  finalContent : String
  revisionCount : Nat
  sourceClosed : Bool
deriving DecidableEq, Repr

/-- The onMessage callback installed by CustomWorkflowDemo.handleStart:
route token content by node, enter the review state on status
user_feedback, finish on status finished. -/
def customStartMsgHandler (s : CustomDemoState) (m : StreamMsg) : CustomDemoState :=
  if m.node = some "research" ∧ isTruthy m.content = true then
    { s with researchContent := s.researchContent ++ m.content.getD ""
             currentStage := some "research" }
  else if m.node = some "draft" ∧ isTruthy m.content = true then
    { s with draftContent := s.draftContent ++ m.content.getD ""
             currentStage := some "draft"
             uiState := "draft" }
  else if m.node = some "finalize" ∧ isTruthy m.content = true then
    { s with finalContent := s.finalContent ++ m.content.getD ""
             currentStage := some "finalize"
             uiState := "finalize" }
  else if m.status = some "user_feedback" then
    { s with uiState := "review", currentStage := some "review" }
  else if m.status = some "finished" then
    { s with uiState := "finished"
             currentStage := none
             finalContent := if isTruthy m.final_output then m.final_output.getD ""
                             else s.finalContent
             sourceClosed := true }
  else s

/-- The synchronous state updates of CustomWorkflowDemo.handleFeedback
before the resume request is sent: guard on non-blank feedback, increment
the revision count by one, re-enter the draft stage with cleared draft
content. -/
def customHandleFeedback (s : CustomDemoState) (feedback : String) : CustomDemoState :=
  if (trimChars feedback.toList).isEmpty then s
  else
    { s with revisionCount := s.revisionCount + 1
             uiState := "draft"
             currentStage := some "draft"
             draftContent := "" }

/-- The synchronous state updates of CustomWorkflowDemo.handleApprove
before the resume request is sent: enter the finalize stage with cleared
final content; the revision count is not touched. -/
def customHandleApprove (s : CustomDemoState) : CustomDemoState :=
  { s with uiState := "finalize"
           currentStage := some "finalize"
           finalContent := "" }

/-- The component state of UnifiedWorkflowDemo touched by
handleStatusUpdate. -/
structure UnifiedDemoState where
  uiState : String
  assistantResponse : String
  analysisPlan : String
  sentences : List (String × String)
  revisionCount : Nat
  generatedCode : String
  visualizationPath : String
  visualizationPaths : List String
deriving DecidableEq, Repr

/-- A status wire message as delivered by streamUnifiedWorkflow to the
message callback (the handler dispatches on a truthy status field). -/
structure UnifiedStatusMsg where
  status : String
  assistant_response : Option String
  draft_content : Option String
  final_output : Option String
  analysis_plan : Option String
  current_content : Option String
  sentences : Option (List (String × String))
  revision_count : Option Nat
  codeField : Option String
  visualization_path : Option String
  visualization_paths : Option (List String)
deriving DecidableEq, Repr

/-- UnifiedWorkflowDemo.handleStatusUpdate: dispatch on the status string;
any status outside user_feedback, code_review, editing, finished leaves the
component state untouched. -/
def handleStatusUpdate (s : UnifiedDemoState) (m : UnifiedStatusMsg) : UnifiedDemoState :=
  if m.status = "user_feedback" then
    { s with uiState := "idle"
             assistantResponse :=
               let a := if isTruthy m.assistant_response then m.assistant_response.getD ""
                        else s.assistantResponse
               if isTruthy m.draft_content then m.draft_content.getD "" else a }
  else if m.status = "code_review" then
    { s with uiState := "code_review"
             analysisPlan := m.analysis_plan.getD "" }
  else if m.status = "editing" then
    { s with uiState := "editing"
             assistantResponse := m.current_content.getD ""
             sentences := m.sentences.getD []
             revisionCount := m.revision_count.getD 0 }
  else if m.status = "finished" then
    { s with uiState := "finished"
             assistantResponse := if isTruthy m.final_output then m.final_output.getD ""
                                  else s.assistantResponse
             generatedCode := if isTruthy m.codeField then m.codeField.getD ""
                              else s.generatedCode
             visualizationPath := if isTruthy m.visualization_path then
                                    m.visualization_path.getD ""
                                  else s.visualizationPath
             visualizationPaths := if m.visualization_paths.isSome then
                                     m.visualization_paths.getD []
                                   else s.visualizationPaths }
  else s

/-- C2 counterexample: the wire status vocabulary handled by the clients is
not the specification one.  In a draft-phase state, a status message whose
status field is paused is ignored by the CustomWorkflowDemo callback (the
state is unchanged, the review UI is not entered), while the review state is
entered on status user_feedback. -/
theorem c2_counterexample :
    customStartMsgHandler
        (CustomDemoState.mk "draft" (some "draft") "r" "d" "" 0 false)
        (StreamMsg.mk none none (some "paused") none none) =
      CustomDemoState.mk "draft" (some "draft") "r" "d" "" 0 false ∧
    (customStartMsgHandler
        (CustomDemoState.mk "draft" (some "draft") "r" "d" "" 0 false)
        (StreamMsg.mk none none (some "paused") none none)).uiState ≠ "review" ∧
    (customStartMsgHandler
        (CustomDemoState.mk "draft" (some "draft") "r" "d" "" 0 false)
        (StreamMsg.mk none none (some "user_feedback") none none)).uiState = "review" := by
  refine ⟨?_, ?_, ?_⟩ <;> decide

/-- C2 amended: the status values the clients recognize are user_feedback,
code_review, editing and finished (not the specification names paused and
failed); for a status-only message, CustomWorkflowDemo enters its
human-review state exactly on status user_feedback, and
UnifiedWorkflowDemo.handleStatusUpdate leaves the component state untouched
for any unrecognized status value (such as paused or failed). -/
theorem c2_amended_status_vocabulary :
    (∀ (s : CustomDemoState) (m : StreamMsg),
      isTruthy m.content = false → s.uiState ≠ "review" →
      ((customStartMsgHandler s m).uiState = "review" ↔ m.status = some "user_feedback")) ∧
    (∀ (s : UnifiedDemoState) (m : UnifiedStatusMsg),
      m.status ≠ "user_feedback" → m.status ≠ "code_review" →
      m.status ≠ "editing" → m.status ≠ "finished" →
      handleStatusUpdate s m = s) := by
  constructor
  · intro s m hc hs
    unfold customStartMsgHandler
    simp only [hc, Bool.false_eq_true, and_false, if_false]
    split_ifs with h1 h2 h3
    · exact iff_of_true rfl h1
    · exact iff_of_false (by simp) h1
    · exact iff_of_false (by simp) h1
    · exact iff_of_false hs h1
  · intro s m h1 h2 h3 h4
    unfold handleStatusUpdate
    rw [if_neg h1, if_neg h2, if_neg h3, if_neg h4]

/-- Witness for the amended C2 at concrete messages: a pure user_feedback
status message puts CustomWorkflowDemo in review, and a paused status
message leaves UnifiedWorkflowDemo untouched. -/
theorem c2_amended_status_vocabulary_witness :
    ((customStartMsgHandler (CustomDemoState.mk "idle" none "" "" "" 0 false)
        (StreamMsg.mk none none (some "user_feedback") none none)).uiState = "review" ↔
      (StreamMsg.mk none none (some "user_feedback") none none).status =
        some "user_feedback") ∧
    handleStatusUpdate (UnifiedDemoState.mk "waiting" "" "" [] 0 "" "" [])
        (UnifiedStatusMsg.mk "paused" none none none none none none none none none none) =
      UnifiedDemoState.mk "waiting" "" "" [] 0 "" "" [] :=
  ⟨c2_amended_status_vocabulary.1 (CustomDemoState.mk "idle" none "" "" "" 0 false)
      (StreamMsg.mk none none (some "user_feedback") none none) (by decide) (by decide),
    c2_amended_status_vocabulary.2 (UnifiedDemoState.mk "waiting" "" "" [] 0 "" "" [])
      (UnifiedStatusMsg.mk "paused" none none none none none none none none none none)
      (by decide) (by decide) (by decide) (by decide)⟩

/-! ### Token wire messages (C7) -/

/-- The object handed to onMessageCallback for a token event. -/
structure TokenCallbackMsg where
  content : Option String
  node : Option String
  workflow_type : Option String
deriving DecidableEq, Repr

/-- streamUnifiedWorkflow token listener: it reads data.content, data.node
and data.workflow_type from the parsed JSON object (modelled as an
association list of string fields). -/
def unifiedTokenRelay (j : List (String × String)) : TokenCallbackMsg :=
  TokenCallbackMsg.mk (j.lookup "content") (j.lookup "node") (j.lookup "workflow_type")

/-- streamCustomWorkflow token listener: it reads data.content and
data.node. -/
def customTokenRelay (j : List (String × String)) : TokenCallbackMsg :=
  TokenCallbackMsg.mk (j.lookup "content") (j.lookup "node") none

/-- The relayed token object as seen by the CustomWorkflowDemo callback. -/
def relayToStreamMsg (t : TokenCallbackMsg) : StreamMsg :=
  StreamMsg.mk t.content t.node none none none

/-- A token JSON object that names its stage both in a field stage and in a
field node, with different values. -/
def tokenJsonWithStage : List (String × String) :=
  [("stage", "draft"), ("node", "research"), ("content", "hi")]

/-- C7 counterexample: the stream clients read the producing stage from the
field named node, not from a field named stage.  On a token object whose
stage field says draft but whose node field says research, the relayed
message carries research, and the CustomWorkflowDemo callback routes the
content to the research display, not the draft display. -/
theorem c7_counterexample :
    (unifiedTokenRelay tokenJsonWithStage).node = some "research" ∧
    tokenJsonWithStage.lookup "stage" = some "draft" ∧
    (unifiedTokenRelay tokenJsonWithStage).node ≠ some "draft" ∧
    (customStartMsgHandler (CustomDemoState.mk "idle" none "" "" "" 0 false)
        (relayToStreamMsg (customTokenRelay tokenJsonWithStage))).researchContent = "hi" ∧
    (customStartMsgHandler (CustomDemoState.mk "idle" none "" "" "" 0 false)
        (relayToStreamMsg (customTokenRelay tokenJsonWithStage))).draftContent = "" := by
  refine ⟨?_, ?_, ?_, ?_, ?_⟩ <;> decide

/-- C7 amended: every token wire message identifies its producing stage in
the field named node (alongside content and an optional workflow_type); the
stream clients read the stage name from the node field, a stage field is
ignored entirely, and the demo routes content to a stage display according
to the node field. -/
theorem c7_amended_token_field_is_node :
    (∀ j : List (String × String),
      (unifiedTokenRelay j).content = j.lookup "content" ∧
      (unifiedTokenRelay j).node = j.lookup "node" ∧
      (unifiedTokenRelay j).workflow_type = j.lookup "workflow_type") ∧
    (∀ (j : List (String × String)) (v : String),
      unifiedTokenRelay (("stage", v) :: j) = unifiedTokenRelay j ∧
      customTokenRelay (("stage", v) :: j) = customTokenRelay j) ∧
    (∀ (s : CustomDemoState) (j : List (String × String)) (c : String),
      j.lookup "node" = some "research" → j.lookup "content" = some c →
      c.isEmpty = false →
      (customStartMsgHandler s (relayToStreamMsg (customTokenRelay j))).researchContent =
        s.researchContent ++ c) := by
  refine ⟨fun j => ⟨rfl, rfl, rfl⟩, fun j v => ⟨rfl, rfl⟩, ?_⟩
  intro s j c hn hc hce
  simp [customStartMsgHandler, relayToStreamMsg, customTokenRelay, hn, hc, isTruthy, hce]

/-- Witness for the amended C7 at a concrete token object. -/
theorem c7_amended_token_field_is_node_witness :
    (customStartMsgHandler (CustomDemoState.mk "idle" none "" "" "" 0 false)
        (relayToStreamMsg (customTokenRelay [("node", "research"), ("content", "hi")]))).researchContent =
      (CustomDemoState.mk "idle" none "" "" "" 0 false).researchContent ++ "hi" :=
  c7_amended_token_field_is_node.2.2 (CustomDemoState.mk "idle" none "" "" "" 0 false)
    [("node", "research"), ("content", "hi")] "hi" (by decide) (by decide) (by decide)

/-! ### Resume request payloads (C3)

Each demo builds its resume request body with a kind field (named
review_action in the custom, data-analysis, editable and basic endpoints,
and action in the unified endpoint) plus optional comment and edit fields;
falsy optional fields are omitted, which the Option encoding expresses. -/

/-- A resume request body.  The field action models review_action / action;
workflowType models the workflow_type field of the unified endpoint. -/
structure ResumePayload where
  thread_id : String
  action : String
  workflowType : Option String
  human_comment : Option String
  edited_sentences : Option (List (String × String))
  sentence_feedback : Option (List (String × String))
deriving DecidableEq, Repr

/-- CustomWorkflowDemo.handleApprove resume body. -/
def customApprovePayload (tid : String) : ResumePayload :=
  ResumePayload.mk tid "approved" none none none none

/-- CustomWorkflowDemo.handleFeedback resume body. -/
def customFeedbackPayload (tid fb : String) : ResumePayload :=
  ResumePayload.mk tid "feedback" none (some fb) none none

/-- DataAnalysisDemo.handleApprove resume body. -/
def dataAnalysisApprovePayload (tid : String) : ResumePayload :=
  ResumePayload.mk tid "approved" none none none none

/-- DataAnalysisDemo.handleFeedback resume body. -/
def dataAnalysisFeedbackPayload (tid fb : String) : ResumePayload :=
  ResumePayload.mk tid "feedback" none (some fb) none none

/-- EditableContentDemo.handleApprove resume body. -/
def editableApprovePayload (tid : String) : ResumePayload :=
  ResumePayload.mk tid "approved" none none none none

/-- EditableContentDemo.handleInstantFeedback resume body. -/
def editableInstantFeedbackPayload (tid fb : String) : ResumePayload :=
  ResumePayload.mk tid "feedback" none (some fb) none none

/-- EditableContentDemo.handleIncorporateEdits resume body: the
editedSentences object is built empty and never filled (only the feedback
map is populated from sentenceFeedback over the sentence ids), and empty
objects and blank comments are sent as undefined. -/
def editableIncorporatePayload (tid : String)
    (sentences sentenceFeedback : List (String × String))
    (generalFeedback : String) : ResumePayload :=
  let editedSentences : List (String × String) := []
  let feedback := (sentences.map Prod.fst).filterMap
    (fun sid => (sentenceFeedback.lookup sid).map (fun f => (sid, f)))
  ResumePayload.mk tid "editing" none
    (if generalFeedback.isEmpty then none else some generalFeedback)
    (if editedSentences.isEmpty then none else some editedSentences)
    (if feedback.isEmpty then none else some feedback)

/-- UnifiedWorkflowDemo.handleApprove resume body. -/
def unifiedApprovePayload (tid wt : String) : ResumePayload :=
  ResumePayload.mk tid "approved" (some wt) none none none

/-- UnifiedWorkflowDemo.handleFeedback resume body. -/
def unifiedFeedbackPayload (tid wt fb : String) : ResumePayload :=
  ResumePayload.mk tid "feedback" (some wt) (some fb) none none

/-- UnifiedWorkflowDemo.handleResumeEditing resume body. -/
def unifiedResumeEditingPayload (tid wt : String)
    (sentences : List (String × String)) : ResumePayload :=
  ResumePayload.mk tid "editing" (some wt) none (some sentences) none

/-- HitlWorkflow.submitReview action override: an approval accompanied by
edits or feedback is downgraded to a feedback action. -/
def hitlSubmitAction (action : String)
    (hasEdits hasFeedback hasSentenceFeedback : Bool) : String :=
  if (hasEdits || hasFeedback || hasSentenceFeedback) && action == "approved" then "feedback"
  else action

/-- The kind values the clients actually place in their resume bodies. -/
def legalResumeActions : List String := ["approved", "feedback", "editing"]

/-- All resume actions the demo handlers can produce for given inputs. -/
def clientResumeActions (tid fb gfb wt : String)
    (sents sfb : List (String × String)) : List String :=
  [(customApprovePayload tid).action,
   (customFeedbackPayload tid fb).action,
   (dataAnalysisApprovePayload tid).action,
   (dataAnalysisFeedbackPayload tid fb).action,
   (editableApprovePayload tid).action,
   (editableInstantFeedbackPayload tid fb).action,
   (editableIncorporatePayload tid sents sfb gfb).action,
   (unifiedApprovePayload tid wt).action,
   (unifiedFeedbackPayload tid wt fb).action,
   (unifiedResumeEditingPayload tid wt sents).action]

/-- Modelled from the spec: the backend resume validation (the FastAPI
backend under backend/ is not part of the source tree).  A kind value
outside the legal set is rejected as a ValidationFailure before any state
is touched; the legal values are the wire values the clients send. -/
inductive ReviewKind
  | approved
  | feedback
  | editing
deriving DecidableEq, Repr

/-- Modelled from the spec: deserialization of the resume kind field,
rejecting unrecognized values as a ValidationFailure. -/
def parseReviewAction (a : String) : Except String ReviewKind :=
  if a = "approved" then Except.ok ReviewKind.approved
  else if a = "feedback" then Except.ok ReviewKind.feedback
  else if a = "editing" then Except.ok ReviewKind.editing
  else Except.error "ValidationFailure"

/-- C3 counterexample: the kind values the clients send are approved,
feedback and editing; in particular the structural-edit resume of the
unified client carries the value editing and the approval resume carries
approved, neither of which is among the claimed values approve, feedback,
structural_edit. -/
theorem c3_counterexample :
    (unifiedResumeEditingPayload "t" "editable" []).action = "editing" ∧
    (customApprovePayload "t").action = "approved" ∧
    "editing" ∉ (["approve", "feedback", "structural_edit"] : List String) ∧
    "approved" ∉ (["approve", "feedback", "structural_edit"] : List String) := by
  refine ⟨?_, ?_, ?_, ?_⟩ <;> decide

/-- C3 amended: every resume request body a client submits carries a kind
value from the set of approved, feedback, editing (the wire counterparts of
the specification names approve, feedback, structural_edit); the
HitlWorkflow action override stays inside this set on the values its
callers pass; and the spec-modelled backend deserialization accepts exactly
this set, rejecting anything else as a ValidationFailure. -/
theorem c3_amended_resume_kinds :
    (∀ (tid fb gfb wt : String) (sents sfb : List (String × String)),
      ∀ a ∈ clientResumeActions tid fb gfb wt sents sfb, a ∈ legalResumeActions) ∧
    (∀ (a : String) (he hf hs : Bool),
      a ∈ legalResumeActions → hitlSubmitAction a he hf hs ∈ legalResumeActions) ∧
    (∀ a : String, (∃ k, parseReviewAction a = Except.ok k) ↔ a ∈ legalResumeActions) := by
  refine ⟨?_, ?_, ?_⟩
  · intro tid fb gfb wt sents sfb a ha
    simp only [clientResumeActions, customApprovePayload, customFeedbackPayload,
      dataAnalysisApprovePayload, dataAnalysisFeedbackPayload, editableApprovePayload,
      editableInstantFeedbackPayload, editableIncorporatePayload, unifiedApprovePayload,
      unifiedFeedbackPayload, unifiedResumeEditingPayload, List.mem_cons,
      List.not_mem_nil, or_false] at ha
    rcases ha with h | h | h | h | h | h | h | h | h | h <;> subst h <;> decide
  · intro a he hf hs ha
    unfold hitlSubmitAction
    split
    · decide
    · exact ha
  · intro a
    constructor
    · rintro ⟨k, hk⟩
      unfold parseReviewAction at hk
      split_ifs at hk with h1 h2 h3
      · subst h1; decide
      · subst h2; decide
      · subst h3; decide
    · intro ha
      simp only [legalResumeActions, List.mem_cons, List.not_mem_nil, or_false] at ha
      rcases ha with h | h | h <;> subst h
      · exact ⟨ReviewKind.approved, rfl⟩
      · exact ⟨ReviewKind.feedback, rfl⟩
      · exact ⟨ReviewKind.editing, rfl⟩

/-- Witness for the amended C3 on concrete inputs. -/
theorem c3_amended_resume_kinds_witness :
    ("editing" ∈ legalResumeActions) ∧
    (hitlSubmitAction "approved" true false false ∈ legalResumeActions) ∧
    (∃ k, parseReviewAction "editing" = Except.ok k) :=
  ⟨c3_amended_resume_kinds.1 "t" "fb" "g" "basic" [] [] "editing" (by decide),
    c3_amended_resume_kinds.2.1 "approved" true false false (by decide),
    (c3_amended_resume_kinds.2.2 "editing").mpr (by decide)⟩

/-! ### Further demo handlers used by C4, C5 and C6 -/

/-- The component state of DataAnalysisDemo touched by its approve and
feedback handlers. -/
structure DataDemoState where
  uiState : String
  currentStage : Option String
  generatedCode : String
  finalReport : String
  revisionCount : Nat
deriving DecidableEq, Repr

/-- The synchronous state updates of DataAnalysisDemo.handleFeedback before
the resume request: guard on non-blank feedback, increment the revision
count by one, re-enter code generation with cleared code. -/
def dataAnalysisHandleFeedback (s : DataDemoState) (feedback : String) : DataDemoState :=
  if (trimChars feedback.toList).isEmpty then s
  else
    { s with revisionCount := s.revisionCount + 1
             uiState := "generating"
             currentStage := some "code_generation"
             generatedCode := "" }

/-- The synchronous state updates of DataAnalysisDemo.handleApprove before
the resume request: enter finalize with a cleared report; the revision
count is not touched. -/
def dataAnalysisHandleApprove (s : DataDemoState) : DataDemoState :=
  { s with uiState := "finalize"
           currentStage := some "finalize"
           finalReport := "" }

/-- The component state of EditableContentDemo touched by
handleSaveEdit. -/
structure EditableDemoState where
  uiState : String
  currentContent : String
  editableContent : String
  sentences : List (String × String)
  editingSentence : Option String
  editText : String
  revisionCount : Nat
deriving DecidableEq, Repr

/-- JavaScript object spread update with a computed key: an existing key
keeps its position and gets the new value, a new key is appended. -/
def objectInsert (m : List (String × String)) (k v : String) : List (String × String) :=
  if (m.lookup k).isSome then m.map (fun p => if p.1 = k then (k, v) else p)
  else m ++ [(k, v)]

/-- JavaScript Object.values(m).join(" ") on an association list. -/
def joinValuesSpace (m : List (String × String)) : String :=
  String.intercalate " " (m.map Prod.snd)

/-- EditableContentDemo.handleSaveEdit: store the edited text under the
edited sentence id, reconstruct the content by joining the unit texts in
order, and clear the editor; the revision count and the editing UI state
are untouched. -/
def editableHandleSaveEdit (s : EditableDemoState) : EditableDemoState :=
  match s.editingSentence with
  | none => s
  | some sid =>
    let updated := objectInsert s.sentences sid s.editText
    { s with sentences := updated
             currentContent := joinValuesSpace updated
             editableContent := joinValuesSpace updated
             editingSentence := none
             editText := "" }

/-! ### The pipeline engine, modelled from the spec

Modelled from the spec: the backend pipeline engine (the LangGraph graphs
and FastAPI routers under backend/app are not part of the source tree; only
the frontend is).  Sections 3, 4.2, 4.3 and 4.4 of the specification define
run state, branch resolution on the human-input kind, and the resume
contract; the model below follows those words. -/

/-- Modelled from the spec: run status values of section 3. -/
inductive RunStatus
  | not_started
  | running
  | paused
  | finished
  | failed
deriving DecidableEq, Repr

/-- Modelled from the spec: the closed human-input kind variant. -/
inductive HumanKind
  | approve
  | feedback
  | structural_edit
deriving DecidableEq, Repr

/-- Modelled from the spec: a human-input payload of section 3. -/
structure HumanInput where
  kind : HumanKind
  comment : Option String
  edits : List (String × String)
deriving DecidableEq, Repr

/-- Modelled from the spec: the run state record of section 3. -/
structure RunState where
  original_request : String
  stage_outputs : List (String × String)
  pending_human_input : Option HumanInput
  revision_count : Nat
  status : RunStatus
  current_stage : String
  edit_units : List (String × String)
deriving DecidableEq, Repr

/-- Modelled from the spec: a declared interrupt point of the pipeline
graph: the interrupt node, the generation stage whose output is under
review there, and the declared next stage taken on approve. -/
structure InterruptPoint where
  reviewPoint : String
  reviewedStage : String
  nextStage : String
deriving DecidableEq, Repr

/-- Modelled from the spec: resume coordinator rejections of section 4.4
and the validation failure of section 7. -/
inductive ResumeError
  | UnknownRun
  | InvalidResumeState
  | DuplicateInput
  | ValidationFailure
deriving DecidableEq, Repr

/-- Modelled from the spec: what the engine does next after merging the
human input: invoke a generation stage through the completion service with
an assembled context, or apply structural edits directly with no completion
service call. -/
inductive EngineAction
  | invokeGeneration (stage : String) (context : List String)
  | applyEditsDirect (stage : String)
deriving DecidableEq, Repr

/-- Modelled from the spec: prompt assembly for a generation stage: the
original request, the accumulated stage outputs, and the feedback text when
present. -/
def assembleContext (st : RunState) (fb : Option String) : List String :=
  [st.original_request] ++ st.stage_outputs.map Prod.snd ++
    (match fb with | some c => [c] | none => [])

/-- Modelled from the spec: pointwise application of edit units (unit id to
new text) into the ordered unit map. -/
def applyEdits (units edits : List (String × String)) : List (String × String) :=
  units.map (fun p => match edits.lookup p.1 with | some t => (p.1, t) | none => p)

/-- Modelled from the spec: overwrite of one stage output, keeping
insertion order (a new stage name is appended). -/
def setOutput (outputs : List (String × String)) (stage out : String) :
    List (String × String) :=
  if (outputs.lookup stage).isSome then
    outputs.map (fun p => if p.1 = stage then (stage, out) else p)
  else outputs ++ [(stage, out)]

/-- Modelled from the spec: the resume coordinator plus the branch
resolution of section 4.2 at a review interrupt point.  Approve proceeds to
the declared next stage; feedback increments the revision count and
re-invokes the reviewed generation stage with the feedback in its context;
a structural edit without feedback is applied directly into the stage
outputs and the run re-enters the same interrupt point; a structural edit
combined with feedback regenerates with the edited units as added
context. -/
def resumeSpec (ip : InterruptPoint) (st : RunState) (inp : HumanInput) :
    Except ResumeError (RunState × EngineAction) :=
  if st.status ≠ RunStatus.paused then Except.error ResumeError.InvalidResumeState
  else if st.pending_human_input.isSome then Except.error ResumeError.DuplicateInput
  else
    match inp.kind with
    | HumanKind.approve =>
      Except.ok ({ st with status := RunStatus.running
                           pending_human_input := none
                           current_stage := ip.nextStage },
        EngineAction.invokeGeneration ip.nextStage (assembleContext st none))
    | HumanKind.feedback =>
      Except.ok ({ st with status := RunStatus.running
                           pending_human_input := none
                           revision_count := st.revision_count + 1
                           current_stage := ip.reviewedStage },
        EngineAction.invokeGeneration ip.reviewedStage (assembleContext st inp.comment))
    | HumanKind.structural_edit =>
      match inp.comment with
      | some c =>
        Except.ok ({ st with status := RunStatus.running
                             pending_human_input := none
                             revision_count := st.revision_count + 1
                             current_stage := ip.reviewedStage
                             edit_units := applyEdits st.edit_units inp.edits },
          EngineAction.invokeGeneration ip.reviewedStage
            (assembleContext st (some c) ++ (applyEdits st.edit_units inp.edits).map Prod.snd))
      | none =>
        Except.ok ({ st with pending_human_input := none
                             edit_units := applyEdits st.edit_units inp.edits
                             stage_outputs := setOutput st.stage_outputs ip.reviewedStage
                               (String.intercalate " "
                                 ((applyEdits st.edit_units inp.edits).map Prod.snd)) },
          EngineAction.applyEditsDirect ip.reviewedStage)

/-- True exactly on an ok result. -/
def exceptOk {ε α : Type} : Except ε α → Bool
  | Except.ok _ => true
  | Except.error _ => false

/-- A concrete review interrupt point of the 4-stage pipeline: the review
node reviews the draft stage and approve proceeds to finalize. -/
def reviewInterrupt : InterruptPoint := InterruptPoint.mk "review" "draft" "finalize"

/-- A concrete run paused at the review interrupt point. -/
def pausedRun : RunState :=
  RunState.mk "req" [("research", "r"), ("draft", "d")] none 0 RunStatus.paused "review"
    [("sentence_0", "d")]

/-- C4: submitting feedback at a review interrupt point increments
revision_count by exactly one (in the CustomWorkflowDemo and
DataAnalysisDemo clients, and in the spec-modelled engine), re-invokes
exactly the generation stage whose output was under review, and the
submitted feedback text is present in that stage's assembled context on the
re-invocation. -/
theorem c4_feedback_increments_revision :
    (∀ (s : CustomDemoState) (fb : String), (trimChars fb.toList).isEmpty = false →
      (customHandleFeedback s fb).revisionCount = s.revisionCount + 1) ∧
    (∀ (s : DataDemoState) (fb : String), (trimChars fb.toList).isEmpty = false →
      (dataAnalysisHandleFeedback s fb).revisionCount = s.revisionCount + 1) ∧
    (∀ (ip : InterruptPoint) (st : RunState) (c : String),
      st.status = RunStatus.paused → st.pending_human_input = none →
      exceptOk (resumeSpec ip st (HumanInput.mk HumanKind.feedback (some c) [])) = true ∧
      (∀ st2 act, resumeSpec ip st (HumanInput.mk HumanKind.feedback (some c) []) =
          Except.ok (st2, act) →
        st2.revision_count = st.revision_count + 1 ∧
        act = EngineAction.invokeGeneration ip.reviewedStage (assembleContext st (some c)) ∧
        c ∈ assembleContext st (some c))) := by
  refine ⟨?_, ?_, ?_⟩
  · intro s fb h
    unfold customHandleFeedback
    rw [if_neg (by simpa [String.toList, List.isEmpty_eq_false] using h)]
  · intro s fb h
    unfold dataAnalysisHandleFeedback
    rw [if_neg (by simpa [String.toList, List.isEmpty_eq_false] using h)]
  · intro ip st c hst hpend
    constructor
    · simp [resumeSpec, exceptOk, hst, hpend]
    · intro st2 act heq
      simp only [resumeSpec, hst, hpend] at heq
      simp only [ne_eq, not_true_eq_false, if_false, Option.isSome_none,
        Bool.false_eq_true, Except.ok.injEq, Prod.mk.injEq] at heq
      obtain ⟨h1, h2⟩ := heq
      subst h1
      subst h2
      refine ⟨rfl, rfl, ?_⟩
      simp [assembleContext]

/-- Witness for C4 at a concrete paused run and feedback text. -/
theorem c4_feedback_increments_revision_witness :
    (customHandleFeedback (CustomDemoState.mk "review" (some "review") "" "d" "" 0 false)
        "add stats").revisionCount =
      (CustomDemoState.mk "review" (some "review") "" "d" "" 0 false).revisionCount + 1 ∧
    exceptOk (resumeSpec reviewInterrupt pausedRun
      (HumanInput.mk HumanKind.feedback (some "add stats") [])) = true :=
  ⟨c4_feedback_increments_revision.1
      (CustomDemoState.mk "review" (some "review") "" "d" "" 0 false) "add stats" (by decide),
    (c4_feedback_increments_revision.2.2 reviewInterrupt pausedRun "add stats"
      (by decide) (by decide)).1⟩

/-- C5: submitting approve at a review interrupt point leaves
revision_count unchanged (in the CustomWorkflowDemo and DataAnalysisDemo
clients, and in the spec-modelled engine) and never re-invokes the reviewed
generation stage: the only stage invoked after an approve is the declared
next stage. -/
theorem c5_approve_frame :
    (∀ s : CustomDemoState, (customHandleApprove s).revisionCount = s.revisionCount) ∧
    (∀ s : DataDemoState, (dataAnalysisHandleApprove s).revisionCount = s.revisionCount) ∧
    (∀ (ip : InterruptPoint) (st : RunState),
      st.status = RunStatus.paused → st.pending_human_input = none →
      ip.nextStage ≠ ip.reviewedStage →
      exceptOk (resumeSpec ip st (HumanInput.mk HumanKind.approve none [])) = true ∧
      (∀ st2 act, resumeSpec ip st (HumanInput.mk HumanKind.approve none []) =
          Except.ok (st2, act) →
        st2.revision_count = st.revision_count ∧
        act = EngineAction.invokeGeneration ip.nextStage (assembleContext st none) ∧
        (∀ ctx, act ≠ EngineAction.invokeGeneration ip.reviewedStage ctx))) := by
  refine ⟨fun s => rfl, fun s => rfl, ?_⟩
  intro ip st hst hpend hne
  constructor
  · simp [resumeSpec, exceptOk, hst, hpend]
  · intro st2 act heq
    simp only [resumeSpec, hst, hpend] at heq
    simp only [ne_eq, not_true_eq_false, if_false, Option.isSome_none,
      Bool.false_eq_true, Except.ok.injEq, Prod.mk.injEq] at heq
    obtain ⟨h1, h2⟩ := heq
    subst h1
    subst h2
    refine ⟨rfl, rfl, ?_⟩
    intro ctx
    simp [hne]

/-- Witness for C5 at a concrete paused run. -/
theorem c5_approve_frame_witness :
    (customHandleApprove (CustomDemoState.mk "review" (some "review") "" "d" "" 0 false)).revisionCount =
      (CustomDemoState.mk "review" (some "review") "" "d" "" 0 false).revisionCount ∧
    exceptOk (resumeSpec reviewInterrupt pausedRun
      (HumanInput.mk HumanKind.approve none [])) = true :=
  ⟨c5_approve_frame.1 (CustomDemoState.mk "review" (some "review") "" "d" "" 0 false),
    (c5_approve_frame.2.2 reviewInterrupt pausedRun (by decide) (by decide) (by decide)).1⟩

/-- C6: at an editable-content interrupt point, a structural edit without
accompanying feedback is applied directly into the stored content (the
client stores the edited text under the edited unit id and reconstructs the
content from the units; the spec-modelled engine writes the edited units
into stage_outputs), the completion service is not invoked, the run
re-enters the same interrupt point, and revision_count is unchanged. -/
theorem c6_structural_edit_direct :
    (∀ (s : EditableDemoState) (sid : String), s.editingSentence = some sid →
      (editableHandleSaveEdit s).revisionCount = s.revisionCount ∧
      (editableHandleSaveEdit s).uiState = s.uiState ∧
      (editableHandleSaveEdit s).sentences = objectInsert s.sentences sid s.editText ∧
      (editableHandleSaveEdit s).currentContent =
        joinValuesSpace (objectInsert s.sentences sid s.editText)) ∧
    (∀ (ip : InterruptPoint) (st : RunState) (edits : List (String × String)),
      st.status = RunStatus.paused → st.pending_human_input = none →
      exceptOk (resumeSpec ip st (HumanInput.mk HumanKind.structural_edit none edits)) = true ∧
      (∀ st2 act, resumeSpec ip st (HumanInput.mk HumanKind.structural_edit none edits) =
          Except.ok (st2, act) →
        st2.status = RunStatus.paused ∧
        st2.current_stage = st.current_stage ∧
        st2.revision_count = st.revision_count ∧
        st2.edit_units = applyEdits st.edit_units edits ∧
        st2.stage_outputs = setOutput st.stage_outputs ip.reviewedStage
          (String.intercalate " " ((applyEdits st.edit_units edits).map Prod.snd)) ∧
        act = EngineAction.applyEditsDirect ip.reviewedStage ∧
        (∀ g ctx, act ≠ EngineAction.invokeGeneration g ctx))) := by
  constructor
  · intro s sid hsid
    simp [editableHandleSaveEdit, hsid]
  · intro ip st edits hst hpend
    constructor
    · simp [resumeSpec, exceptOk, hst, hpend]
    · intro st2 act heq
      simp only [resumeSpec, hst, hpend] at heq
      simp only [ne_eq, not_true_eq_false, if_false, Option.isSome_none,
        Bool.false_eq_true, Except.ok.injEq, Prod.mk.injEq] at heq
      obtain ⟨h1, h2⟩ := heq
      subst h1
      subst h2
      refine ⟨rfl, rfl, rfl, rfl, rfl, rfl, ?_⟩
      intro g ctx
      simp

/-- Witness for C6 at a concrete editing state and a concrete paused
run. -/
theorem c6_structural_edit_direct_witness :
    (editableHandleSaveEdit (EditableDemoState.mk "editing" "d" "d"
        [("sentence_0", "d")] (some "sentence_0") "New text." 0)).revisionCount =
      (EditableDemoState.mk "editing" "d" "d"
        [("sentence_0", "d")] (some "sentence_0") "New text." 0).revisionCount ∧
    exceptOk (resumeSpec reviewInterrupt pausedRun
      (HumanInput.mk HumanKind.structural_edit none [("sentence_0", "New text.")])) = true :=
  ⟨(c6_structural_edit_direct.1 (EditableDemoState.mk "editing" "d" "d"
        [("sentence_0", "d")] (some "sentence_0") "New text." 0) "sentence_0" (by decide)).1,
    (c6_structural_edit_direct.2 reviewInterrupt pausedRun [("sentence_0", "New text.")]
      (by decide) (by decide)).1⟩
